import Mathlib

/-!
Verification of the linear-feature merge-and-clip engine
(`FeatureMergeWithIds.mergeLineStrings` and its private helpers
`removeDetailOutsideTile` / `sortByHilbertIndex`).

Coordinates are tile-local doubles in the source; they are embedded as
exact rationals (`ℚ`).  Java `long` feature ids are embedded as `ℤ`.
A vector-tile feature's encoded geometry together with its fallible
`decode()` is embedded as `Except String Geom`: `.error` models a
`GeometryException` thrown while decoding.

External planetiler components that are only *called* by this repository
(`FeatureMerge.groupByAttrs`, `LoopLineMerger`, `VectorTile.hilbertIndex`,
`MutableCoordinateSequence`) are modelled from the specification; each such
definition carries a doc comment starting with `Modelled from the spec:`.
Everything else is translated directly from the source.
-/

set_option allowUnsafeReducibility true in
attribute [semireducible] Rat.add Rat.sub Rat.mul Rat.inv

namespace Transitopia

/-- A 2-D tile-local coordinate (a JTS `Coordinate`). -/
abbrev Coord := ℚ × ℚ

/-- A line string: ordered sequence of coordinates. -/
abbrev Line := List Coord

/-- A (multi-)line geometry: `GeoUtils.combineLineStrings` output is the list
of its component line strings; a plain input line is a one-element list. -/
abbrev Geom := List Line

/-- A feature's tag mapping, as an association list (first match wins). -/
abbrev Tags := List (String × String)

deriving instance DecidableEq for Except

/-- A `VectorTile.Feature`: id, tags, and the result of decoding its
geometry (`.error` models a `GeometryException` during `decode()`). -/
structure Feature where
  id : ℤ
  tags : Tags
  geom : Except String Geom
deriving DecidableEq

/-- Look a key up in a tag list (first binding wins, like a `Map`). -/
def lookupTag : Tags → String → Option String
  | [], _ => none
  | (k', v') :: rest, k => if k' == k then some v' else lookupTag rest k

/-- Replace the binding of `k` (keeping its position) or append it:
the map-update semantics of `VectorTile.Feature.setTag`. -/
def setTagList (ts : Tags) (k v : String) : Tags :=
  match ts with
  | [] => [(k, v)]
  | (k', v') :: rest =>
    if k' == k then (k, v) :: rest else (k', v') :: setTagList rest k v

/-- `VectorTile.Feature.setTag`. -/
def Feature.setTag (f : Feature) (k v : String) : Feature :=
  { f with tags := setTagList f.tags k v }

/-- `VectorTile.Feature.copyWithNewGeometry`: same id and tags, new
(already decoded) geometry. -/
def Feature.copyWithNewGeometry (f : Feature) (g : Geom) : Feature :=
  { f with geom := Except.ok g }

/-- Whether the feature's geometry decodes without a `GeometryException`. -/
def isDecodable (f : Feature) : Bool :=
  match f.geom with
  | Except.ok _ => true
  | Except.error _ => false

/-! ### Tile-boundary clipping (`removeDetailOutsideTile`, lines 123-161) -/

/-- JTS `Envelope.init(x1, x2, y1, y2)` followed by
`env.intersects(new Envelope(lo, hi, lo, hi))`: the closed bounding box of
the two coordinates meets the closed square `[lo, hi] × [lo, hi]`. -/
def envIntersects (x1 x2 y1 y2 lo hi : ℚ) : Bool :=
  decide (lo ≤ max x1 x2) && decide (min x1 x2 ≤ hi) &&
    decide (lo ≤ max y1 y2) && decide (min y1 y2 ≤ hi)

/-- The loop body of `removeDetailOutsideTile`: current point `p`, remaining
points `ns`, the `wasIn` flag, the run `cur` being built, and the flushed
output `out`.  When `ns` is empty we are at the source's post-loop "last
point" block (there `x = lastX` and `y = lastY`, so the envelope test
degenerates to a point-in-square test).  `MutableCoordinateSequence.addPoint`
is modelled as a plain append (see `removeDetailOutsideTile`). -/
def rdotGo (lo hi : ℚ) : Coord → List Coord → Bool → List Coord → List Line → List Line
  | p, [], wasIn, cur, out =>
    let cur' := if envIntersects p.1 p.1 p.2 p.2 lo hi || wasIn then cur ++ [p] else cur
    if 2 ≤ cur'.length then out ++ [cur'] else out
  | p, n :: rest, wasIn, cur, out =>
    let nowIn := envIntersects p.1 n.1 p.2 n.2 lo hi
    if nowIn || wasIn then
      rdotGo lo hi n rest nowIn (cur ++ [p]) out
    else
      rdotGo lo hi n rest nowIn [] (if 2 ≤ cur.length then out ++ [cur] else out)

/-- `removeDetailOutsideTile(input, buffer, output)`: walks consecutive
coordinate pairs, keeping a point while the current pair's bounding box (or
the previous pair's) intersects the buffered tile square
`[-buffer, 256+buffer]²`, flushing runs of at least two points.
The unnamed-coordinate container `MutableCoordinateSequence` is external;
modelled from the spec as a plain coordinate list (`addPoint` appends). -/
def removeDetailOutsideTile (input : Line) (buffer : ℚ) : List Line :=
  match input with
  | [] => []
  | p :: rest => rdotGo (-buffer) (256 + buffer) p rest false [] []

/-- The clip dispatch inside `mergeLineStrings` (lines 93-99): clip each
merged line when `buffer >= 0`, otherwise pass it through unchanged. -/
def clipStage (buffer : ℚ) : List Line → List Line
  | [] => []
  | l :: ls =>
    (if 0 ≤ buffer then removeDetailOutsideTile l buffer else [l]) ++ clipStage buffer ls

/-! ### Declarative clipper (the spec's description, for claim C4) -/

/-- Point-in-buffered-square test (the degenerate envelope of the final
point against the square). -/
def pointInSquare (lo hi : ℚ) (p : Coord) : Bool :=
  envIntersects p.1 p.1 p.2 p.2 lo hi

/-- Spec-side retention flags: a coordinate is retained iff its current
consecutive pair's bounding box intersects the buffered square or the
previous pair's did; the final coordinate's "pair" degenerates to the
point itself. -/
def keptPairs (lo hi : ℚ) : Coord → List Coord → Bool → List (Coord × Bool)
  | p, [], wasIn => [(p, pointInSquare lo hi p || wasIn)]
  | p, n :: rest, wasIn =>
    let nowIn := envIntersects p.1 n.1 p.2 n.2 lo hi
    (p, nowIn || wasIn) :: keptPairs lo hi n rest nowIn

/-- Emit a finished run only if it has at least two points. -/
def flushRun (cur : List Coord) : List Line :=
  if 2 ≤ cur.length then [cur] else []

/-- Spec-side run splitting: maximal blocks of consecutively retained
coordinates, each emitted only when it has at least two points. -/
def runsAux : List (Coord × Bool) → List Coord → List Line
  | [], cur => flushRun cur
  | (c, true) :: rest, cur => runsAux rest (cur ++ [c])
  | (_, false) :: rest, cur => flushRun cur ++ runsAux rest []

/-- Declarative restatement of the clipper from the spec's words: retained
coordinates (current-pair-or-previous-pair rule) split into maximal runs,
short runs discarded. -/
def clipSpec (input : Line) (buffer : ℚ) : List Line :=
  match input with
  | [] => []
  | p :: rest => runsAux (keptPairs (-buffer) (256 + buffer) p rest false) []

/-! ### Deterministic spatial sort (`sortByHilbertIndex`, lines 163-173) -/

/-- One round of the standard Hilbert xy-to-d computation (bit `s`,
grid side `n`). -/
def hilbertRound (n s : Nat) (xyd : Nat × Nat × Nat) : Nat × Nat × Nat :=
  let x := xyd.1
  let y := xyd.2.1
  let d := xyd.2.2
  let rx := x / s % 2 == 1
  let ry := y / s % 2 == 1
  let d' := d + s * s * ((if rx then 3 else 0) ^^^ (if ry then 1 else 0))
  if ry then (x, y, d')
  else if rx then (n - 1 - y, n - 1 - x, d')
  else (y, x, d')

/-- Hilbert-curve index of a cell of the 256 × 256 grid. -/
def hilbertXY (x y : Nat) : Nat :=
  ((List.range 8).reverse.foldl (fun xyd k => hilbertRound 256 (2 ^ k) xyd) (x, y, 0)).2.2

/-- Floor of a rational (numerator Euclidean-divided by the positive
denominator). -/
def ratFloor (q : ℚ) : ℤ := q.num / q.den

/-- Clamp a tile-local coordinate to a cell index of the fixed grid. -/
def cellOf (q : ℚ) : Nat := (max 0 (min 255 (ratFloor q))).toNat

/-- Modelled from the spec: `VectorTile.hilbertIndex` (external planetiler
code; only its caller is in this repository).  A space-filling-curve
(Hilbert) index of the line's representative point — its first
coordinate — within a fixed-resolution grid covering the tile. -/
def hilbertIndex (l : Line) : Nat :=
  match l.head? with
  | none => 0
  | some p => hilbertXY (cellOf p.1) (cellOf p.2)

/-- The ordering relation of the comparator `BY_HILBERT_INDEX` (line 39):
it compares the Hilbert indices and nothing else. -/
def hilbertLe (a b : Line) : Prop := hilbertIndex a ≤ hilbertIndex b

instance : DecidableRel hilbertLe :=
  fun a b => Nat.decLe (hilbertIndex a) (hilbertIndex b)

instance : IsTotal Line hilbertLe :=
  ⟨fun a b => Nat.le_total (hilbertIndex a) (hilbertIndex b)⟩

instance : IsTrans Line hilbertLe := ⟨fun _ _ _ => Nat.le_trans⟩

/-- `sortByHilbertIndex` (lines 166-172): a stable sort by Hilbert index.
Java's `Stream.sorted` is a stable sort; any stable sort by a total
preorder computes the same list, so it is embedded as a stable insertion
sort. -/
def sortByHilbertIndex (ls : List Line) : List Line :=
  ls.insertionSort hilbertLe

/-! ### The line merger (external `LoopLineMerger`, modelled from the spec) -/

/-- The configuration the source installs on the `LoopLineMerger` builder
(lines 77-83): caller tolerance, `mergeStrokes(true)`, caller length limit
as both `minLength` and `loopMinLength`, and the constant `0.5` as
`stubMinLength`. -/
structure MergerConfig where
  tolerance : ℚ
  mergeStrokes : Bool
  minLength : ℚ
  loopMinLength : ℚ
  stubMinLength : ℚ
deriving DecidableEq

/-- The builder chain of lines 77-83. -/
def mkMergerConfig (lengthLimit tolerance : ℚ) : MergerConfig :=
  { tolerance := tolerance
    mergeStrokes := true
    minLength := lengthLimit
    loopMinLength := lengthLimit
    stubMinLength := 1 / 2 }

/-- Modelled from the spec: line length.  The spec does not fix a metric;
the taxicab metric keeps the model in exact rational arithmetic. -/
def segLen (a b : Coord) : ℚ := |b.1 - a.1| + |b.2 - a.2|

/-- Modelled from the spec: total length of a line. -/
def lineLen : Line → ℚ
  | [] => 0
  | [_] => 0
  | a :: b :: rest => segLen a b + lineLen (b :: rest)

/-- The two endpoints of a line. -/
def endpointList (l : Line) : List Coord :=
  l.head?.toList ++ l.getLast?.toList

/-- Number of line ends meeting at a point (a closed loop contributes two). -/
def degreeAt (ls : List Line) (p : Coord) : Nat :=
  (ls.map (fun l =>
    (if l.head? = some p then 1 else 0) + (if l.getLast? = some p then 1 else 0))).sum

/-- Fuse two lines at a shared endpoint `p`: orient `a` to end at `p`,
`b` to start at `p`, and concatenate. -/
def joinAt (p : Coord) (a b : Line) : Line :=
  let a' := if a.getLast? = some p then a else a.reverse
  let b' := if b.head? = some p then b else b.reverse
  a' ++ b'.tail

/-- An endpoint shared by `a` and `b` at which exactly two line ends of the
whole set meet (the spec's degree-2 connectivity condition). -/
def sharedDeg2Point (all : List Line) (a b : Line) : Option Coord :=
  ((endpointList a).filter (fun p =>
    (endpointList b).contains p && (degreeAt all p == 2))).head?

/-- Find the first line of the list fusable with `a`, returning it and the
fused line. -/
def findPartner (all : List Line) (a : Line) : List Line → Option (Line × Line)
  | [] => none
  | b :: bs =>
    match sharedDeg2Point all a b with
    | some p => some (b, joinAt p a b)
    | none => findPartner all a bs

/-- Perform one fusion somewhere in the list, if possible. -/
def pickJoin (all : List Line) : List Line → Option (List Line)
  | [] => none
  | a :: rest =>
    match findPartner all a rest with
    | some (b, j) => some (j :: rest.erase b)
    | none => (pickJoin all rest).map (fun ls => a :: ls)

/-- Fuse until no degree-2-connected pair remains (each fusion reduces the
line count, so the initial count is enough fuel). -/
def fuseLoop : Nat → List Line → List Line
  | 0, ls => ls
  | fuel + 1, ls =>
    match pickJoin ls ls with
    | none => ls
    | some ls' => fuseLoop fuel ls'

/-- Squared Euclidean distance between two points. -/
def distSqPoint (a b : Coord) : ℚ := (b.1 - a.1) ^ 2 + (b.2 - a.2) ^ 2

/-- Squared distance from point `v` to the segment `u`-`w`. -/
def distSqPointSeg (v u w : Coord) : ℚ :=
  let dx := w.1 - u.1
  let dy := w.2 - u.2
  let len2 := dx ^ 2 + dy ^ 2
  if len2 = 0 then distSqPoint u v
  else
    let t := max 0 (min 1 (((v.1 - u.1) * dx + (v.2 - u.2) * dy) / len2))
    distSqPoint (u.1 + t * dx, u.2 + t * dy) v

/-- Modelled from the spec: vertex reduction within tolerance — an interior
vertex is removed only when dropping it moves the line by at most the
tolerance (compared in squared form). -/
def simplifyLine (tol2 : ℚ) : Line → Line
  | u :: v :: w :: rest =>
    if distSqPointSeg v u w ≤ tol2 then simplifyLine tol2 (u :: w :: rest)
    else u :: simplifyLine tol2 (v :: w :: rest)
  | l => l
termination_by l => l.length

/-- Whether a line shares an endpoint with another line of the set (the
junction-connectivity condition of the spec's stub protection). -/
def touchesOther (all : List Line) (l : Line) : Bool :=
  all.any (fun m => !(m == l) && (endpointList m).any (fun p => (endpointList l).contains p))

/-- Modelled from the spec: the length filter — lines (loops against
`loopMinLength`) shorter than the limit are dropped, unless they are
junction stubs shorter than `stubMinLength`, which are kept to preserve
connectivity. -/
def keepLine (cfg : MergerConfig) (all : List Line) (l : Line) : Bool :=
  let lim := if l.head? == l.getLast? && decide (3 ≤ l.length)
    then cfg.loopMinLength else cfg.minLength
  decide (lim ≤ lineLen l) ||
    (decide (lineLen l < cfg.stubMinLength) && touchesOther all l)

/-- Modelled from the spec: `LoopLineMerger.getMergedLineStrings` (external
planetiler code; only its caller is in this repository).  Endpoint-connected
lines are fused whenever exactly two line ends meet (endpoint equality taken
exactly, epsilon `0`), closed rings becoming single closed lines; the fused
lines are simplified within the tolerance (tolerance `0` meaning no
simplification, as in the source's shortcut comment) and filtered by the
length limits with stub protection. -/
def getMergedLineStrings (cfg : MergerConfig) (lines : List Line) : List Line :=
  let fused := fuseLoop lines.length lines
  let simplified :=
    if cfg.tolerance = 0 then fused
    else fused.map (simplifyLine (cfg.tolerance * cfg.tolerance))
  simplified.filter (keepLine cfg simplified)

/-! ### Grouping (external `FeatureMerge.groupByAttrs`, modelled from the
spec) and the merge pipeline (`mergeLineStrings`, lines 59-118) -/

/-- Modelled from the spec: tag-mapping equality — a set/mapping equality,
not key-order equality. -/
def tagsEquiv (t1 t2 : Tags) : Bool :=
  t1.all (fun kv => lookupTag t2 kv.1 == some kv.2) &&
    t2.all (fun kv => lookupTag t1 kv.1 == some kv.2)

/-- Append a feature to the group holding its attribute key, or open a new
group at the end (the `LinkedHashMap` discipline: first-seen group order,
input order within a group). -/
def addToGroups (gs : List (Tags × List Feature)) (f : Feature) : List (Tags × List Feature) :=
  match gs with
  | [] => [(f.tags, [f])]
  | (k, g) :: rest =>
    if tagsEquiv k f.tags then (k, g ++ [f]) :: rest
    else (k, g) :: addToGroups rest f

/-- Modelled from the spec: `FeatureMerge.groupByAttrs` (external planetiler
code; only its caller is in this repository).  Partitions the features into
groups of equal attribute keys, in first-seen order; every input feature is
of line geometry type, per the input contract. -/
def groupByAttrs (fs : List Feature) : List (List Feature) :=
  (fs.foldl addToGroups []).map (fun kg => kg.2)

/-- The decode loop of lines 84-91: decoded geometries' lines in order, the
ids of the successfully decoded features in order, and one log message per
feature whose decode threw. -/
def collectValid : List Feature → List Line × List ℤ × List String
  | [] => ([], [], [])
  | f :: rest =>
    let r := collectValid rest
    match f.geom with
    | Except.ok g => (g ++ r.1, f.id :: r.2.1, r.2.2)
    | Except.error e =>
      (r.1, r.2.1, ("Error decoding vector tile feature for line merge: " ++ e) :: r.2.2)

/-- The shortcut test of line 73: singleton group, `buffer == 0`, zero
length limit, and no (re-)simplification needed. -/
def shortcutCond (group : List Feature) (lengthLimit tolerance buffer : ℚ)
    (resimplify : Bool) : Bool :=
  decide (group.length = 1) && decide (buffer = 0) && decide (lengthLimit = 0) &&
    (!resimplify || decide (tolerance = 0))

/-- Ascending order on ids (Java `Long` natural order). -/
def intLe (a b : ℤ) : Prop := a ≤ b

instance : DecidableRel intLe := fun a b => Int.decLe a b

instance : IsTotal ℤ intLe := ⟨fun a b => Int.le_total a b⟩

instance : IsTrans ℤ intLe := ⟨fun _ _ _ => le_trans⟩

/-- The ids sorted ascending (`mergedIds.stream().sorted()`, a stable sort). -/
def sortedIds (ids : List ℤ) : List ℤ := ids.insertionSort intLe

/-- Line 111: the sorted ids, rendered and comma-joined. -/
def idsString (ids : List ℤ) : String :=
  String.intercalate "," ((sortedIds ids).map toString)

/-- The ids of the group's successfully decoded members. -/
def groupIds (g : List Feature) : List ℤ := (g.filter isDecodable).map Feature.id

/-- The per-group body of the `for` loop of lines 64-115: either the
singleton shortcut, or decode-merge-clip-sort-assemble.  Returns the
features contributed by the group together with the decode-error log
messages. -/
def processGroup (lengthLimitCalculator : Tags → ℚ) (tolerance buffer : ℚ)
    (resimplify : Bool) (group : List Feature) : List Feature × List String :=
  match group with
  | [] => ([], [])
  | feature1 :: _ =>
    let lengthLimit := lengthLimitCalculator feature1.tags
    if shortcutCond group lengthLimit tolerance buffer resimplify then ([feature1], [])
    else
      let v := collectValid group
      let merged := getMergedLineStrings (mkMergerConfig lengthLimit tolerance) v.1
      let outputSegments := clipStage buffer merged
      if outputSegments.isEmpty then ([], v.2.2)
      else
        let newGeometry := sortByHilbertIndex outputSegments
        let mergedFeature :=
          (feature1.copyWithNewGeometry newGeometry).setTag "osm_way_ids" (idsString v.2.1)
        ([mergedFeature], v.2.2)

/-- `mergeLineStrings(features, lengthLimitCalculator, tolerance, buffer,
resimplify, pipeline)` (lines 59-118); the `pipeline` argument, `null` at
every call site in this repository, is omitted.  The result list is the
groups' contributions in group order. -/
def mergeLineStrings (features : List Feature) (lengthLimitCalculator : Tags → ℚ)
    (tolerance buffer : ℚ) (resimplify : Bool) : List Feature :=
  ((groupByAttrs features).map
    (fun g => (processGroup lengthLimitCalculator tolerance buffer resimplify g).1)).flatten

/-! ### Lemmas about the clipper -/

theorem flush_eq (out : List Line) (cur : List Coord) :
    (if 2 ≤ cur.length then out ++ [cur] else out) = out ++ flushRun cur := by
  unfold flushRun
  split <;> simp

theorem rdotGo_eq_runsAux (lo hi : ℚ) (ns : List Coord) :
    ∀ (p : Coord) (wasIn : Bool) (cur : List Coord) (out : List Line),
      rdotGo lo hi p ns wasIn cur out = out ++ runsAux (keptPairs lo hi p ns wasIn) cur := by
  induction ns with
  | nil =>
    intro p wasIn cur out
    simp only [rdotGo, keptPairs, pointInSquare]
    cases h : envIntersects p.1 p.1 p.2 p.2 lo hi || wasIn
    · simp only [h, Bool.false_eq_true, if_false]
      rw [flush_eq]
      simp [runsAux, flushRun]
    · simp only [h, eq_self_iff_true, if_true]
      rw [flush_eq]
      simp [runsAux]
  | cons n rest ih =>
    intro p wasIn cur out
    simp only [rdotGo, keptPairs]
    cases h : envIntersects p.1 n.1 p.2 n.2 lo hi || wasIn
    · simp only [h, Bool.false_eq_true, if_false]
      rw [ih, flush_eq]
      simp [runsAux, List.append_assoc]
    · simp only [h, eq_self_iff_true, if_true]
      rw [ih]
      simp [runsAux]

/-- Claim C4.  For every input line and `buffer ≥ 0`, the clipper's output is
exactly the declarative description: a coordinate is retained iff the current
consecutive-pair bounding box intersects the buffered tile square or the
previous pair's did (so a line outside for a single pair is not split, while
one outside for two consecutive pairs is flushed and split), and every
flushed or final run with fewer than two points is discarded. -/
theorem C4_clipper_retention_characterization (line : Line) (buffer : ℚ)
    (h : 0 ≤ buffer) :
    removeDetailOutsideTile line buffer = clipSpec line buffer := by
  cases line with
  | nil => rfl
  | cons p rest =>
    simpa [removeDetailOutsideTile, clipSpec] using
      rdotGo_eq_runsAux (-buffer) (256 + buffer) rest p false [] []

/-- Witness for C4: the characterization applied to a concrete line that
leaves the tile for one pair and re-enters. -/
theorem C4_clipper_retention_characterization_witness :
    removeDetailOutsideTile
        [((10 : ℚ), (10 : ℚ)), ((-40 : ℚ), (-40 : ℚ)), ((20 : ℚ), (20 : ℚ))] 0 =
      clipSpec [((10 : ℚ), (10 : ℚ)), ((-40 : ℚ), (-40 : ℚ)), ((20 : ℚ), (20 : ℚ))] 0 :=
  C4_clipper_retention_characterization _ 0 le_rfl

theorem mem_rdotGo_infix (lo hi : ℚ) (ns : List Coord) :
    ∀ (p : Coord) (wasIn : Bool) (cur : List Coord) (out : List Line) (l : Line),
      l ∈ rdotGo lo hi p ns wasIn cur out →
        l ∈ out ∨ ∃ s t, s ++ l ++ t = cur ++ p :: ns := by
  induction ns with
  | nil =>
    intro p wasIn cur out l hl
    simp only [rdotGo] at hl
    cases h : envIntersects p.1 p.1 p.2 p.2 lo hi || wasIn
    · simp only [h, Bool.false_eq_true, if_false] at hl
      split at hl
      · rcases List.mem_append.1 hl with h' | h'
        · exact Or.inl h'
        · refine Or.inr ⟨[], [p], ?_⟩
          rw [List.mem_singleton.1 h']
          simp
      · exact Or.inl hl
    · simp only [h, eq_self_iff_true, if_true] at hl
      split at hl
      · rcases List.mem_append.1 hl with h' | h'
        · exact Or.inl h'
        · refine Or.inr ⟨[], [], ?_⟩
          rw [List.mem_singleton.1 h']
          simp
      · exact Or.inl hl
  | cons n rest ih =>
    intro p wasIn cur out l hl
    simp only [rdotGo] at hl
    cases h : envIntersects p.1 n.1 p.2 n.2 lo hi || wasIn
    · simp only [h, Bool.false_eq_true, if_false] at hl
      rcases ih n _ [] _ l hl with h' | ⟨s, t, hst⟩
      · split at h'
        · rcases List.mem_append.1 h' with h'' | h''
          · exact Or.inl h''
          · refine Or.inr ⟨[], p :: n :: rest, ?_⟩
            rw [List.mem_singleton.1 h'']
            simp
        · exact Or.inl h'
      · refine Or.inr ⟨cur ++ [p] ++ s, t, ?_⟩
        simp only [List.nil_append] at hst
        simp [hst, List.append_assoc]
    · simp only [h, eq_self_iff_true, if_true] at hl
      rcases ih n _ (cur ++ [p]) _ l hl with h' | ⟨s, t, hst⟩
      · exact Or.inl h'
      · exact Or.inr ⟨s, t, by simpa [List.append_assoc] using hst⟩

/-- Claim C10.  For every input line and `buffer ≥ 0`, every output line of
the clipper is a contiguous subsequence of the input's coordinate sequence:
no coordinate is interpolated or fabricated, coordinates are only dropped
and runs split. -/
theorem C10_clipper_contiguous_subsequence (line : Line) (buffer : ℚ)
    (h : 0 ≤ buffer) :
    ∀ seg ∈ removeDetailOutsideTile line buffer, ∃ s t, s ++ seg ++ t = line := by
  cases line with
  | nil => simp [removeDetailOutsideTile]
  | cons p rest =>
    intro seg hseg
    rcases mem_rdotGo_infix (-buffer) (256 + buffer) rest p false [] [] seg hseg with
      h' | ⟨s, t, hst⟩
    · simp at h'
    · exact ⟨s, t, by simpa using hst⟩

/-- Witness for C10: the theorem applied to a concrete output line of the
clipper at buffer 0. -/
theorem C10_clipper_contiguous_subsequence_witness :
    ∃ s t, s ++ [((10 : ℚ), (10 : ℚ)), ((20 : ℚ), (10 : ℚ))] ++ t =
      [((10 : ℚ), (10 : ℚ)), ((20 : ℚ), (10 : ℚ))] :=
  C10_clipper_contiguous_subsequence [((10 : ℚ), (10 : ℚ)), ((20 : ℚ), (10 : ℚ))] 0 le_rfl
    [((10 : ℚ), (10 : ℚ)), ((20 : ℚ), (10 : ℚ))] (by decide)

/-- Claim C5.  Clipping is disabled exactly when `buffer < 0`: every line
passes through the clipping step unchanged for negative buffers, while for
every nonnegative buffer some line is altered by it. -/
theorem C5_negative_buffer_passthrough (buffer : ℚ) :
    (buffer < 0 → ∀ ls : List Line, clipStage buffer ls = ls) ∧
      (0 ≤ buffer → ∃ l : Line, clipStage buffer [l] ≠ [l]) := by
  constructor
  · intro h ls
    induction ls with
    | nil => rfl
    | cons l ls ih => simp [clipStage, not_le.mpr h, ih]
  · intro h
    refine ⟨[(-buffer - 2, 10), (-buffer - 1, 10)], ?_⟩
    have hmax : ¬(-buffer ≤ max (-buffer - 2) (-buffer - 1)) := by
      rw [le_max_iff]
      push_neg
      constructor <;> linarith
    have henv : envIntersects (-buffer - 2) (-buffer - 1) 10 10 (-buffer) (256 + buffer) = false := by
      simp [envIntersects, hmax]
    have hpt : envIntersects (-buffer - 1) (-buffer - 1) 10 10 (-buffer) (256 + buffer) = false := by
      have : ¬(-buffer ≤ max (-buffer - 1) (-buffer - 1)) := by
        rw [max_self]
        intro hc
        linarith
      simp [envIntersects, this]
    simp [clipStage, h, removeDetailOutsideTile, rdotGo, henv, hpt]

/-- Witness for C5: at buffer `-1` a concrete line list passes through, and
at buffer `0` the altered line exists. -/
theorem C5_negative_buffer_passthrough_witness :
    clipStage (-1) [[((1 : ℚ), (2 : ℚ)), ((3 : ℚ), (4 : ℚ))]] =
        [[((1 : ℚ), (2 : ℚ)), ((3 : ℚ), (4 : ℚ))]] ∧
      ∃ l : Line, clipStage 0 [l] ≠ [l] :=
  ⟨(C5_negative_buffer_passthrough (-1)).1 (by norm_num) _,
    (C5_negative_buffer_passthrough 0).2 le_rfl⟩

/-! ### Lemmas about tags, the decode loop, and grouping -/

theorem lookupTag_setTagList_self (ts : Tags) (k v : String) :
    lookupTag (setTagList ts k v) k = some v := by
  induction ts with
  | nil => simp [setTagList, lookupTag]
  | cons kv rest ih =>
    obtain ⟨ke, ve⟩ := kv
    by_cases h : (ke == k) = true
    · simp [setTagList, h, lookupTag]
    · simp [setTagList, h, lookupTag, ih]

theorem lookupTag_setTagList_ne (ts : Tags) (k v kq : String) (h : k ≠ kq) :
    lookupTag (setTagList ts k v) kq = lookupTag ts kq := by
  induction ts with
  | nil => simp [setTagList, lookupTag, h]
  | cons kv rest ih =>
    obtain ⟨ke, ve⟩ := kv
    by_cases h1 : (ke == k) = true
    · have hek : ke = k := by simpa using h1
      simp [setTagList, h1, lookupTag, hek, h]
    · simp [setTagList, h1, lookupTag, ih]

/-- The decoded geometry of a feature (empty for a failed decode; only ever
used beneath an `isDecodable` filter). -/
def decodedGeom (f : Feature) : Geom :=
  match f.geom with
  | Except.ok g => g
  | Except.error _ => []

theorem collectValid_lines (fs : List Feature) :
    (collectValid fs).1 = ((fs.filter isDecodable).map decodedGeom).flatten := by
  induction fs with
  | nil => rfl
  | cons f rest ih =>
    cases hg : f.geom with
    | ok g => simp [collectValid, hg, isDecodable, List.filter_cons, decodedGeom, ih]
    | error e => simp [collectValid, hg, isDecodable, List.filter_cons, ih]

theorem collectValid_ids (fs : List Feature) :
    (collectValid fs).2.1 = (fs.filter isDecodable).map Feature.id := by
  induction fs with
  | nil => rfl
  | cons f rest ih =>
    cases hg : f.geom with
    | ok g => simp [collectValid, hg, isDecodable, List.filter_cons, ih]
    | error e => simp [collectValid, hg, isDecodable, List.filter_cons, ih]

theorem collectValid_logs_length (fs : List Feature) :
    (collectValid fs).2.2.length = (fs.filter (fun f => !isDecodable f)).length := by
  induction fs with
  | nil => rfl
  | cons f rest ih =>
    cases hg : f.geom with
    | ok g => simp [collectValid, hg, isDecodable, List.filter_cons, ih]
    | error e => simp [collectValid, hg, isDecodable, List.filter_cons, ih]

theorem addToGroups_flatten_perm (f : Feature) (gs : List (Tags × List Feature)) :
    List.Perm (((addToGroups gs f).map (fun kg => kg.2)).flatten)
      ((gs.map (fun kg => kg.2)).flatten ++ [f]) := by
  induction gs with
  | nil => simp [addToGroups]
  | cons kg rest ih =>
    obtain ⟨k, g⟩ := kg
    by_cases h : tagsEquiv k f.tags = true
    · simp only [addToGroups, h, if_true, List.map_cons, List.flatten_cons]
      have h1 : List.Perm ([f] ++ (rest.map (fun kg => kg.2)).flatten)
          ((rest.map (fun kg => kg.2)).flatten ++ [f]) := List.perm_append_comm
      have h2 := h1.append_left g
      simp only [List.append_assoc] at h2 ⊢
      exact h2
    · simp only [addToGroups, h, if_false, Bool.false_eq_true, List.map_cons,
        List.flatten_cons]
      have h2 := ih.append_left g
      simp only [List.append_assoc] at h2 ⊢
      exact h2

theorem foldl_addToGroups_perm (fs : List Feature) :
    ∀ gs : List (Tags × List Feature),
      List.Perm (((fs.foldl addToGroups gs).map (fun kg => kg.2)).flatten)
        ((gs.map (fun kg => kg.2)).flatten ++ fs) := by
  induction fs with
  | nil => intro gs; simp
  | cons f rest ih =>
    intro gs
    have h1 := ih (addToGroups gs f)
    have h2 := (addToGroups_flatten_perm f gs).append_right rest
    simp only [List.foldl_cons]
    refine h1.trans (h2.trans ?_)
    simp [List.append_assoc]

theorem groupByAttrs_flatten_perm (fs : List Feature) :
    List.Perm (groupByAttrs fs).flatten fs := by
  simpa [groupByAttrs] using foldl_addToGroups_perm fs []

theorem mem_map_id_of_mem_groupIds (g : List Feature) (i : ℤ) (h : i ∈ groupIds g) :
    i ∈ g.map Feature.id := by
  simp only [groupIds, List.mem_map] at h
  obtain ⟨f, hf, rfl⟩ := h
  exact List.mem_map_of_mem Feature.id (List.mem_of_mem_filter hf)

theorem groupIds_sublist (g : List Feature) :
    List.Sublist (groupIds g) (g.map Feature.id) :=
  (List.filter_sublist g).map Feature.id

theorem groups_nodup_and_disjoint (fs : List Feature)
    (h : (fs.map Feature.id).Nodup) :
    (∀ g ∈ groupByAttrs fs, (g.map Feature.id).Nodup) ∧
      (groupByAttrs fs).Pairwise
        (fun g1 g2 => ∀ i, i ∈ groupIds g1 → i ∉ groupIds g2) := by
  have hperm : List.Perm ((groupByAttrs fs).flatten.map Feature.id) (fs.map Feature.id) :=
    (groupByAttrs_flatten_perm fs).map Feature.id
  have hnodup : ((groupByAttrs fs).flatten.map Feature.id).Nodup := hperm.nodup_iff.2 h
  rw [List.map_flatten, List.nodup_flatten] at hnodup
  constructor
  · intro g hg
    exact hnodup.1 (g.map Feature.id) (List.mem_map_of_mem _ hg)
  · have hpw := hnodup.2
    rw [List.pairwise_map] at hpw
    refine hpw.imp ?_
    intro g1 g2 hdisj i h1 h2
    exact hdisj (mem_map_id_of_mem_groupIds g1 i h1) (mem_map_id_of_mem_groupIds g2 i h2)

theorem processGroup_else_empty (llc : Tags → ℚ) (tol buf : ℚ) (resim : Bool)
    (f1 : Feature) (rest : List Feature)
    (hsc : shortcutCond (f1 :: rest) (llc f1.tags) tol buf resim = false)
    (hempty : clipStage buf (getMergedLineStrings (mkMergerConfig (llc f1.tags) tol)
      (collectValid (f1 :: rest)).1) = []) :
    (processGroup llc tol buf resim (f1 :: rest)).1 = [] := by
  simp [processGroup, hsc, hempty]

theorem processGroup_else_emit (llc : Tags → ℚ) (tol buf : ℚ) (resim : Bool)
    (f1 : Feature) (rest : List Feature)
    (hsc : shortcutCond (f1 :: rest) (llc f1.tags) tol buf resim = false)
    (hne : clipStage buf (getMergedLineStrings (mkMergerConfig (llc f1.tags) tol)
      (collectValid (f1 :: rest)).1) ≠ []) :
    (processGroup llc tol buf resim (f1 :: rest)).1 =
      [(f1.copyWithNewGeometry (sortByHilbertIndex
          (clipStage buf (getMergedLineStrings (mkMergerConfig (llc f1.tags) tol)
            (collectValid (f1 :: rest)).1)))).setTag "osm_way_ids"
        (idsString (collectValid (f1 :: rest)).2.1)] := by
  simp [processGroup, hsc, List.isEmpty_iff, hne]

/-! ### Claims C1, C6, C7, C8, C9 -/

/-- Counterexample to claim C1 as stated: a singleton group processed with
`buffer < 0`, length limit `0`, `resimplify = false` is NOT returned
unchanged — the source's shortcut requires `buffer == 0` (line 73), so with
a negative buffer the group takes the merge path and the identifier-list
key `osm_way_ids` is added. -/
theorem C1_singleton_negative_buffer_counterexample :
    mergeLineStrings [⟨7, [("k", "v")], Except.ok [[((10 : ℚ), (10 : ℚ)), ((20 : ℚ), (10 : ℚ))]]⟩]
        (fun _ => 0) 0 (-1) false =
      [⟨7, [("k", "v"), ("osm_way_ids", "7")],
        Except.ok [[((10 : ℚ), (10 : ℚ)), ((20 : ℚ), (10 : ℚ))]]⟩] ∧
    mergeLineStrings [⟨7, [("k", "v")], Except.ok [[((10 : ℚ), (10 : ℚ)), ((20 : ℚ), (10 : ℚ))]]⟩]
        (fun _ => 0) 0 (-1) false ≠
      [⟨7, [("k", "v")], Except.ok [[((10 : ℚ), (10 : ℚ)), ((20 : ℚ), (10 : ℚ))]]⟩] := by
  decide

/-- Claim C1 (amended).  The identity pass-through holds for a singleton
group when `buffer = 0` (the source's actual shortcut condition), the
group's length limit is `0`, and `resimplify = false`: the output is the
input feature itself, with no identifier-list key added. -/
theorem C1_shortcut_identity (f : Feature) (llc : Tags → ℚ) (tol buf : ℚ)
    (resim : Bool) (hb : buf = 0) (hl : llc f.tags = 0) (hr : resim = false) :
    mergeLineStrings [f] llc tol buf resim = [f] := by
  subst hb hr
  simp [mergeLineStrings, groupByAttrs, addToGroups, processGroup, shortcutCond, hl]

/-- Witness for C1: the amended shortcut identity at a concrete feature. -/
theorem C1_shortcut_identity_witness :
    mergeLineStrings [⟨5, [("a", "b")], Except.ok [[((1 : ℚ), (1 : ℚ)), ((2 : ℚ), (2 : ℚ))]]⟩]
        (fun _ => 0) 3 0 false =
      [⟨5, [("a", "b")], Except.ok [[((1 : ℚ), (1 : ℚ)), ((2 : ℚ), (2 : ℚ))]]⟩] :=
  C1_shortcut_identity _ _ 3 0 false rfl rfl rfl

/-- Claim C6.  A group that reaches the merge path and whose merged-and-
clipped line set is empty contributes no output feature (and, the embedding
being total, no error is raised). -/
theorem C6_empty_clip_no_output (llc : Tags → ℚ) (tol buf : ℚ) (resim : Bool)
    (f1 : Feature) (rest : List Feature)
    (hsc : shortcutCond (f1 :: rest) (llc f1.tags) tol buf resim = false)
    (hempty : clipStage buf (getMergedLineStrings (mkMergerConfig (llc f1.tags) tol)
      (collectValid (f1 :: rest)).1) = []) :
    (processGroup llc tol buf resim (f1 :: rest)).1 = [] :=
  processGroup_else_empty llc tol buf resim f1 rest hsc hempty

/-- Witness for C6: one line entirely outside the buffered tile square with
buffer `1` yields zero output features for its group. -/
theorem C6_empty_clip_no_output_witness :
    (processGroup (fun _ => 0) 0 1 false
      [⟨2, [("k", "v")], Except.ok [[((300 : ℚ), (10 : ℚ)), ((310 : ℚ), (10 : ℚ))]]⟩]).1 = [] :=
  C6_empty_clip_no_output (fun _ => 0) 0 1 false _ [] (by decide) (by decide)

/-- Claim C7.  For every group on the merge path — the only path that
decodes geometries, so every decode failure happens there (the singleton
shortcut of line 73 decodes nothing): each member whose decode fails
contributes exactly one log entry; the merger input is exactly the decoded
geometries of the decodable members; the id list is exactly the decodable
members' ids; and the group's emitted features are computed from those
alone, with the first feature as attribute donor — one bad input never
aborts the group or the batch, and the remaining valid geometries are
still merged and emitted. -/
theorem C7_bad_geometry_excluded (llc : Tags → ℚ) (tol buf : ℚ) (resim : Bool)
    (f1 : Feature) (rest : List Feature)
    (hsc : shortcutCond (f1 :: rest) (llc f1.tags) tol buf resim = false) :
    (collectValid (f1 :: rest)).2.2.length =
        ((f1 :: rest).filter (fun f => !isDecodable f)).length ∧
      (collectValid (f1 :: rest)).1 =
        (((f1 :: rest).filter isDecodable).map decodedGeom).flatten ∧
      (collectValid (f1 :: rest)).2.1 = groupIds (f1 :: rest) ∧
      (processGroup llc tol buf resim (f1 :: rest)).1 =
        (if (clipStage buf (getMergedLineStrings (mkMergerConfig (llc f1.tags) tol)
              ((((f1 :: rest).filter isDecodable).map decodedGeom).flatten))).isEmpty
          then []
          else [(f1.copyWithNewGeometry (sortByHilbertIndex
              (clipStage buf (getMergedLineStrings (mkMergerConfig (llc f1.tags) tol)
                ((((f1 :: rest).filter isDecodable).map decodedGeom).flatten))))).setTag
            "osm_way_ids" (idsString (groupIds (f1 :: rest)))]) := by
  refine ⟨collectValid_logs_length _, collectValid_lines _, collectValid_ids _, ?_⟩
  simp only [processGroup, hsc, Bool.false_eq_true, if_false]
  rw [collectValid_lines, collectValid_ids]
  simp only [groupIds]
  split <;> rfl

/-- Witness for C7: the corner group of one decodable and one undecodable
feature at buffer `0` and length limit `0` (group size 2, so the merge
path is taken): the bad member is logged once and excluded, and the valid
geometry is still merged and emitted, carrying only id 1. -/
theorem C7_bad_geometry_excluded_witness :
    (collectValid
        [⟨1, [("k", "v")], Except.ok [[((10 : ℚ), (10 : ℚ)), ((20 : ℚ), (10 : ℚ))]]⟩,
          (⟨2, [("k", "v")], Except.error "bad ring"⟩ : Feature)]).2.2.length = 1 ∧
    (processGroup (fun _ => 0) 0 0 false
        [⟨1, [("k", "v")], Except.ok [[((10 : ℚ), (10 : ℚ)), ((20 : ℚ), (10 : ℚ))]]⟩,
          ⟨2, [("k", "v")], Except.error "bad ring"⟩]).1 =
      [⟨1, [("k", "v"), ("osm_way_ids", "1")],
        Except.ok [[((10 : ℚ), (10 : ℚ)), ((20 : ℚ), (10 : ℚ))]]⟩] := by
  have h := C7_bad_geometry_excluded (fun _ => 0) 0 0 false
    ⟨1, [("k", "v")], Except.ok [[((10 : ℚ), (10 : ℚ)), ((20 : ℚ), (10 : ℚ))]]⟩
    [⟨2, [("k", "v")], Except.error "bad ring"⟩] (by decide)
  exact ⟨h.1.trans (by decide), h.2.2.2.trans (by decide)⟩

/-- Counterexample to claim C8 as stated: there is no caller-supplied
`stubMinLength` — the stub threshold the merger receives is the same for
maximally different invocations (it is the hard-coded `0.5` of line 82),
so changing the caller-supplied configuration never changes it. -/
theorem C8_stub_threshold_counterexample :
    (mkMergerConfig 0 0).stubMinLength = (mkMergerConfig 7 3).stubMinLength ∧
      (mkMergerConfig 0 0).stubMinLength = 1 / 2 :=
  ⟨rfl, rfl⟩

/-- Claim C8 (amended).  The stub-protection threshold is the constant
`0.5` for every invocation, independent of the caller's length limit and
tolerance (and of every other caller-supplied value, none of which reach
the builder's `setStubMinLength(0.5)` call). -/
theorem C8_stub_threshold_hardcoded (lengthLimit tolerance : ℚ) :
    (mkMergerConfig lengthLimit tolerance).stubMinLength = 1 / 2 := rfl

/-- Claim C9.  Every feature emitted by the non-shortcut path is a copy of
the group's first feature with only the geometry replaced and the single
identifier-list tag set: same id, every other tag unchanged. -/
theorem C9_merged_feature_frame (llc : Tags → ℚ) (tol buf : ℚ) (resim : Bool)
    (f1 : Feature) (rest : List Feature)
    (hsc : shortcutCond (f1 :: rest) (llc f1.tags) tol buf resim = false) :
    ∀ feat ∈ (processGroup llc tol buf resim (f1 :: rest)).1,
      (∃ g : Geom, feat =
          (f1.copyWithNewGeometry g).setTag "osm_way_ids"
            (idsString (groupIds (f1 :: rest)))) ∧
        feat.id = f1.id ∧
        lookupTag feat.tags "osm_way_ids" = some (idsString (groupIds (f1 :: rest))) ∧
        ∀ k, k ≠ "osm_way_ids" → lookupTag feat.tags k = lookupTag f1.tags k := by
  intro feat hfeat
  by_cases hout : clipStage buf (getMergedLineStrings (mkMergerConfig (llc f1.tags) tol)
      (collectValid (f1 :: rest)).1) = []
  · rw [processGroup_else_empty llc tol buf resim f1 rest hsc hout] at hfeat
    simp at hfeat
  · rw [processGroup_else_emit llc tol buf resim f1 rest hsc hout] at hfeat
    rw [List.mem_singleton.1 hfeat]
    have hids : (collectValid (f1 :: rest)).2.1 = groupIds (f1 :: rest) :=
      collectValid_ids _
    refine ⟨⟨sortByHilbertIndex (clipStage buf (getMergedLineStrings
      (mkMergerConfig (llc f1.tags) tol) (collectValid (f1 :: rest)).1)), by rw [hids]⟩,
      rfl, ?_, ?_⟩
    · rw [hids]
      exact lookupTag_setTagList_self _ _ _
    · intro k hk
      exact lookupTag_setTagList_ne _ _ _ _ (fun he => hk he.symm)

/-- Witness for C9: the frame property at the concrete feature emitted for
a two-feature group whose lines share the endpoint `(20,10)`. -/
theorem C9_merged_feature_frame_witness :
    (⟨1, [("k", "v"), ("osm_way_ids", "1,2")],
        Except.ok [[((10 : ℚ), (10 : ℚ)), ((20 : ℚ), (10 : ℚ)), ((30 : ℚ), (10 : ℚ))]]⟩ :
          Feature).id =
      (⟨1, [("k", "v")], Except.ok [[((10 : ℚ), (10 : ℚ)), ((20 : ℚ), (10 : ℚ))]]⟩ :
        Feature).id ∧
    lookupTag (⟨1, [("k", "v"), ("osm_way_ids", "1,2")],
        Except.ok [[((10 : ℚ), (10 : ℚ)), ((20 : ℚ), (10 : ℚ)), ((30 : ℚ), (10 : ℚ))]]⟩ :
          Feature).tags "osm_way_ids" =
      some (idsString (groupIds
        [⟨1, [("k", "v")], Except.ok [[((10 : ℚ), (10 : ℚ)), ((20 : ℚ), (10 : ℚ))]]⟩,
          ⟨2, [("k", "v")], Except.ok [[((20 : ℚ), (10 : ℚ)), ((30 : ℚ), (10 : ℚ))]]⟩])) := by
  have h := C9_merged_feature_frame (fun _ => 0) 0 (-1) false
    ⟨1, [("k", "v")], Except.ok [[((10 : ℚ), (10 : ℚ)), ((20 : ℚ), (10 : ℚ))]]⟩
    [⟨2, [("k", "v")], Except.ok [[((20 : ℚ), (10 : ℚ)), ((30 : ℚ), (10 : ℚ))]]⟩]
    (by decide)
    ⟨1, [("k", "v"), ("osm_way_ids", "1,2")],
      Except.ok [[((10 : ℚ), (10 : ℚ)), ((20 : ℚ), (10 : ℚ)), ((30 : ℚ), (10 : ℚ))]]⟩
    (by decide)
  exact ⟨h.2.1, h.2.2.1⟩

/-! ### Claims C2 and C3 -/

/-- Counterexample to claim C2 as stated: with buffer `0`, feature 2's line
`(300,10)-(310,10)` lies entirely outside the tile square, so it contributes
no surviving coordinate — the output geometry is feature 1's line only — yet
the identifier list is `"1,2"`, not `"1"`: the source (lines 84-91) collects
the id of every successfully decoded input, whether or not its geometry
survives clipping. -/
theorem C2_discarded_id_counterexample :
    (mergeLineStrings
        [⟨1, [("k", "v")], Except.ok [[((10 : ℚ), (10 : ℚ)), ((20 : ℚ), (10 : ℚ))]]⟩,
          ⟨2, [("k", "v")], Except.ok [[((300 : ℚ), (10 : ℚ)), ((310 : ℚ), (10 : ℚ))]]⟩]
        (fun _ => 0) 0 0 false).map (fun f => lookupTag f.tags "osm_way_ids") =
      [some "1,2"] ∧
    (mergeLineStrings
        [⟨1, [("k", "v")], Except.ok [[((10 : ℚ), (10 : ℚ)), ((20 : ℚ), (10 : ℚ))]]⟩,
          ⟨2, [("k", "v")], Except.ok [[((300 : ℚ), (10 : ℚ)), ((310 : ℚ), (10 : ℚ))]]⟩]
        (fun _ => 0) 0 0 false).map Feature.geom =
      [Except.ok [[((10 : ℚ), (10 : ℚ)), ((20 : ℚ), (10 : ℚ))]]] := by
  decide

/-- Claim C2 (amended).  For distinct input ids: groups have pairwise
disjoint id sets (so no identifier appears in two output features), and
every feature emitted by the merge path carries under `osm_way_ids` exactly
the ids of the group's successfully decoded members — whether or not their
coordinates survive — sorted ascending, each appearing once, comma-joined. -/
theorem C2_identifier_list_amended (llc : Tags → ℚ) (tol buf : ℚ) (resim : Bool)
    (fs : List Feature) (hids : (fs.map Feature.id).Nodup) :
    (groupByAttrs fs).Pairwise
        (fun g1 g2 => ∀ i, i ∈ groupIds g1 → i ∉ groupIds g2) ∧
      ∀ f1 rest, (f1 :: rest) ∈ groupByAttrs fs →
        shortcutCond (f1 :: rest) (llc f1.tags) tol buf resim = false →
        ∀ feat ∈ (processGroup llc tol buf resim (f1 :: rest)).1,
          lookupTag feat.tags "osm_way_ids" =
              some (idsString (groupIds (f1 :: rest))) ∧
            List.Sorted intLe (sortedIds (groupIds (f1 :: rest))) ∧
            (sortedIds (groupIds (f1 :: rest))).Nodup ∧
            ∀ i, (i ∈ sortedIds (groupIds (f1 :: rest)) ↔ i ∈ groupIds (f1 :: rest)) := by
  obtain ⟨hnodup, hdisj⟩ := groups_nodup_and_disjoint fs hids
  refine ⟨hdisj, ?_⟩
  intro f1 rest hmem hsc feat hfeat
  have hgnodup : (groupIds (f1 :: rest)).Nodup :=
    List.Nodup.sublist (groupIds_sublist _) (hnodup _ hmem)
  have hperm := List.perm_insertionSort intLe (groupIds (f1 :: rest))
  refine ⟨?_, List.sorted_insertionSort intLe _, hperm.nodup_iff.2 hgnodup,
    fun i => hperm.mem_iff⟩
  by_cases hout : clipStage buf (getMergedLineStrings (mkMergerConfig (llc f1.tags) tol)
      (collectValid (f1 :: rest)).1) = []
  · rw [processGroup_else_empty llc tol buf resim f1 rest hsc hout] at hfeat
    simp at hfeat
  · rw [processGroup_else_emit llc tol buf resim f1 rest hsc hout] at hfeat
    rw [List.mem_singleton.1 hfeat]
    rw [show (collectValid (f1 :: rest)).2.1 = groupIds (f1 :: rest) from collectValid_ids _]
    exact lookupTag_setTagList_self _ _ _

/-- Witness for C2: the amended theorem applied to a concrete two-feature
batch with distinct ids. -/
theorem C2_identifier_list_amended_witness :
    (groupByAttrs
        [⟨1, [("k", "v")], Except.ok [[((10 : ℚ), (10 : ℚ)), ((20 : ℚ), (10 : ℚ))]]⟩,
          ⟨2, [("k", "v")], Except.ok [[((300 : ℚ), (10 : ℚ)), ((310 : ℚ), (10 : ℚ))]]⟩]).Pairwise
      (fun g1 g2 => ∀ i, i ∈ groupIds g1 → i ∉ groupIds g2) :=
  (C2_identifier_list_amended (fun _ => 0) 0 0 false
    [⟨1, [("k", "v")], Except.ok [[((10 : ℚ), (10 : ℚ)), ((20 : ℚ), (10 : ℚ))]]⟩,
      ⟨2, [("k", "v")], Except.ok [[((300 : ℚ), (10 : ℚ)), ((310 : ℚ), (10 : ℚ))]]⟩]
    (by decide)).1

/-- Counterexample to claim C3 as stated: two disjoint lines whose first
coordinates clamp to the same grid cell have equal Hilbert indices; the
comparator of line 39 has no secondary key and the sort is stable, so
permuting the two input features changes the output (here even the emitted
feature's id, donated by the group's first feature, changes, and the
concatenated geometry order flips). -/
theorem C3_permutation_counterexample :
    hilbertIndex [((300 : ℚ), (10 : ℚ)), ((301 : ℚ), (10 : ℚ))] =
        hilbertIndex [((400 : ℚ), (10 : ℚ)), ((401 : ℚ), (12 : ℚ))] ∧
      mergeLineStrings
          [⟨1, [("k", "v")], Except.ok [[((300 : ℚ), (10 : ℚ)), ((301 : ℚ), (10 : ℚ))]]⟩,
            ⟨2, [("k", "v")], Except.ok [[((400 : ℚ), (10 : ℚ)), ((401 : ℚ), (12 : ℚ))]]⟩]
          (fun _ => 0) 0 (-1) false ≠
        mergeLineStrings
          [⟨2, [("k", "v")], Except.ok [[((400 : ℚ), (10 : ℚ)), ((401 : ℚ), (12 : ℚ))]]⟩,
            ⟨1, [("k", "v")], Except.ok [[((300 : ℚ), (10 : ℚ)), ((301 : ℚ), (10 : ℚ))]]⟩]
          (fun _ => 0) 0 (-1) false := by
  decide

/-- Claim C3 (amended).  The per-group spatial sort is ascending by Hilbert
index and permutes the merged lines; it is stable with no secondary key, so
the output is input-order-independent only up to the relative order of
lines with equal Hilbert index (and up to the group's first feature, which
donates the merged feature's id and tags). -/
theorem C3_hilbert_sort_sorted_perm (ls : List Line) :
    List.Perm (sortByHilbertIndex ls) ls ∧
      List.Sorted hilbertLe (sortByHilbertIndex ls) :=
  ⟨List.perm_insertionSort hilbertLe ls, List.sorted_insertionSort hilbertLe ls⟩

end Transitopia
